import Mathlib

/-!
Verification of the psmqtt core (topic templating / wildcard engine, path
resolver, payload encoder, task dispatcher, recurrence scheduler) against
its specification.

The program is shallowly embedded: strings are `List Char`, Python integers
are `Int`, fallible operations return `Except`.  Python string search
(`str.find`, including its clamping of negative start positions) is modelled
by `pyFind`; the `while` loop of `Topic._find_wildcard` is modelled by a
fuel-indexed recursion whose totality is proved below.
-/

set_option maxRecDepth 4000

namespace Psmqtt

/-- The ASCII single-quote character (code 39). -/
def sq : Char := Char.ofNat 39

/-- The ASCII double-quote character (code 34). -/
def dq : Char := Char.ofNat 34

/-- The ASCII backslash character (code 92). -/
def bs : Char := Char.ofNat 92

/-- Index of the first occurrence of `c` in `s`, if any. -/
def firstIdx : List Char → Char → Option Nat
  | [], _ => none
  | x :: xs, c => if x = c then some 0 else (firstIdx xs c).map (· + 1)

/-- The effective start position of Python `str.find(c, start)`: a negative
`start` is clamped to `max (len + start) 0`, exactly as in CPython. -/
def pyStart (s : List Char) (start : Int) : Nat :=
  if start < 0 then (s.length + start).toNat else start.toNat

/-- Python `topic.find(c, start)`: first index of `c` at or after `start`,
`-1` when absent. -/
def pyFind (s : List Char) (c : Char) (start : Int) : Int :=
  match firstIdx (s.drop (pyStart s start)) c with
  | some j => ((pyStart s start + j : Nat) : Int)
  | none => -1

/-- The `wildcard_len` computed by an iteration of `Topic._find_wildcard`
whose `*` was found at `pyFind topic '*' start`: 2 for a `**` sequence,
else 1 (src/psmqtt.py lines 131-133). -/
def wildLen (topic : List Char) (start : Int) : Int :=
  if pyFind topic '*' start + 1 < (topic.length : Int)
      ∧ topic[(pyFind topic '*' start + 1).toNat]? = some '*' then 2 else 1

/-- One iteration of the `while` loop of `Topic._find_wildcard`
(src/psmqtt.py lines 119-138): search for `*` or `**` (but not `*;` or
`**;`) outside of `[]`.  `rec` is the continuation for the next iteration
(`continue`); the loop's local variables `wildcard_index`, `bracket_index`
and `wildcard_len` are written out as the pure expressions they name. -/
def auxStep (topic : List Char) (rec : Int → Option (Int × Int)) (start : Int) :
    Option (Int × Int) :=
  if start < (topic.length : Int) then
    if pyFind topic '*' start < 0 then some (-1, -1)
    else if 0 ≤ pyFind topic '[' start ∧ pyFind topic '[' start < pyFind topic '*' start then
      rec (pyFind topic ']' (pyFind topic '[' start))
    else if pyFind topic '*' start + wildLen topic start < (topic.length : Int)
        ∧ topic[(pyFind topic '*' start + wildLen topic start).toNat]? = some ';' then
      rec (pyFind topic '*' start + wildLen topic start)
    else some (pyFind topic '*' start, wildLen topic start)
  else some (-1, -1)

/-- The loop of `Topic._find_wildcard`, indexed by fuel; `none` means the
fuel ran out (never happens at `topic.length + 2` fuel, see
`find_wildcardAux_total`). -/
def find_wildcardAux (topic : List Char) : Nat → Int → Option (Int × Int)
  | 0, _ => none
  | fuel + 1, start => auxStep topic (find_wildcardAux topic fuel) start

/-- `Topic._find_wildcard`: offset and length of the recognized wildcard,
`(-1, -1)` when there is none. -/
def find_wildcard (topic : List Char) : Int × Int :=
  (find_wildcardAux topic (topic.length + 2) 0).getD (-1, -1)

/-- The `Topic` class: raw topic string plus the wildcard position computed
by `_find_wildcard` in `__init__`. -/
structure Topic where
  topic : List Char
  wildcard_index : Int
  wildcard_len : Int
deriving DecidableEq

/-- `Topic.__init__`. -/
def mkTopic (t : List Char) : Topic :=
  { topic := t
    wildcard_index := (find_wildcard t).1
    wildcard_len := (find_wildcard t).2 }

/-- `Topic.is_multitopic`: true iff the wildcard offset is strictly positive. -/
def Topic.is_multitopic (t : Topic) : Bool :=
  decide (0 < t.wildcard_index)

/-- `Topic.get_subtopic`: replace the wildcard span by `param`; raises when
the topic has no wildcard. -/
def Topic.get_subtopic (t : Topic) (param : List Char) : Except (List Char) (List Char) :=
  if t.wildcard_index < 0 then
    Except.error ("Topic ".toList ++ t.topic ++ " have no wildcard".toList)
  else
    Except.ok (t.topic.take t.wildcard_index.toNat ++ param
      ++ t.topic.drop (t.wildcard_index + t.wildcard_len).toNat)

/-- `Topic.get_topic`. -/
def Topic.get_topic (t : Topic) : List Char := t.topic

/-- `Topic.get_error_topic`: the raw topic with `/error` appended. -/
def Topic.get_error_topic (t : Topic) : List Char := t.topic ++ "/error".toList

/-- Strings opaque to the wildcard scan: containing none of `*`, `[`, `]`. -/
def plain (l : List Char) : Prop := ∀ x ∈ l, x ≠ '*' ∧ x ≠ '[' ∧ x ≠ ']'

instance (l : List Char) : Decidable (plain l) := by
  unfold plain
  infer_instance

/-- A resolved task value as produced by a handler: scalar (int, string,
bool), `IntEnum` member (carrying its underlying integer), list, or dict
(string keys, as required by `json.dumps` and by `str(key)` in `run_task`). -/
inductive Value where
  | int (n : Int)
  | str (s : List Char)
  | bool (b : Bool)
  | enum (n : Int)
  | list (xs : List Value)
  | dict (kvs : List (List Char × Value))

/-- Python `str(...)` of an int. -/
def intRepr (n : Int) : List Char := (Int.repr n).toList

/-- Python `str(...)` of a nonnegative index. -/
def natRepr (n : Nat) : List Char := (Nat.repr n).toList

/-- `json.dumps` string escaping (quote and backslash; control characters do
not occur in the values this model ranges over). -/
def jsonEscape (s : List Char) : List Char :=
  (s.map fun c => if c = dq ∨ c = bs then [bs, c] else [c]).flatten

/-- Comma-space separated join, as produced by `json.dumps` with its default
separators. -/
def joinSep : List (List Char) → List Char
  | [] => []
  | [x] => x
  | x :: rest => x ++ ", ".toList ++ joinSep rest

mutual

/-- `json.dumps` on a resolved value (an `IntEnum` member serializes as its
underlying integer, as in CPython). -/
def jdump : Value → List Char
  | .int n => intRepr n
  | .enum n => intRepr n
  | .bool b => if b then "true".toList else "false".toList
  | .str s => dq :: jsonEscape s ++ [dq]
  | .list xs => '[' :: joinSep (jdumpList xs) ++ [']']
  | .dict kvs => Char.ofNat 123 :: joinSep (jdumpDict kvs) ++ [Char.ofNat 125]

def jdumpList : List Value → List (List Char)
  | [] => []
  | v :: vs => jdump v :: jdumpList vs

def jdumpDict : List (List Char × Value) → List (List Char)
  | [] => []
  | (k, v) :: kvs => (dq :: jsonEscape k ++ [dq] ++ ": ".toList ++ jdump v) :: jdumpDict kvs

end

/-- What `payload_as_string` actually returns: a string in every branch
except the `IntEnum` one, which returns the bare integer `v.value`. -/
inductive PayloadResult where
  | str (s : List Char)
  | int (n : Int)
deriving DecidableEq

/-- `payload_as_string` (src/psmqtt.py lines 88-98).  Branch order follows
the source: dict, `IntEnum`, non-list (`str(v)`), single-element list
(recurse), other list (`json.dumps`). -/
def payload_as_string : Value → PayloadResult
  | .dict kvs => .str (jdump (.dict kvs))
  | .enum n => .int n
  | .int n => .str (intRepr n)
  | .str s => .str s
  | .bool b => .str (if b then "True".toList else "False".toList)
  | .list [v] => payload_as_string v
  | .list xs => .str (jdump (.list xs))

/-- Scalars in the spec's sense: string or number (the shapes Python's
`str` maps directly to their natural textual form). -/
def isScalar : Value → Bool
  | .int _ => true
  | .str _ => true
  | .bool _ => true
  | _ => false

def Value.isList : Value → Bool
  | .list _ => true
  | _ => false

def Value.isDict : Value → Bool
  | .dict _ => true
  | _ => false

/-- `split` (src/psmqtt.py lines 217-219): Python `s.split("/", 1)`, with
the tail defaulting to the empty string when no separator is present. -/
def split (s : List Char) : List Char × List Char :=
  match firstIdx s '/' with
  | some i => (s.take i, s.drop (i + 1))
  | none => (s, [])

/-- A handler registry entry: `handle(tail)` may fail with a descriptive
error. -/
def Handler : Type := List Char → Except (List Char) Value

/-- Error message of `get_value` for an unregistered head segment:
`Element '<head>' in '<path>' is not supported`. -/
def unsupported_msg (head p : List Char) : List Char :=
  "Element ".toList ++ [sq] ++ head ++ [sq] ++ " in ".toList ++ [sq] ++ p ++ [sq]
    ++ " is not supported".toList

/-- `get_value` (src/psmqtt.py lines 101-111).

Modelled from the spec: `Formatter.get_format` / `Formatter.format` live in
`format.py` and the handler registry in `handlers.py`, neither of which is
under src/; they are taken as abstract parameters (`getFormat` strips an
optional trailing format directive, `applyFormat` applies it and may fail,
`hs` is the registered handler namespace). -/
def get_value (hs : List (List Char × Handler))
    (getFormat : List Char → List Char × Option (List Char))
    (applyFormat : List Char → Value → Except (List Char) Value)
    (path : List Char) : Except (List Char) Value :=
  let p := (getFormat path).1
  let head := (split p).1
  let tail := (split p).2
  match hs.lookup head with
  | some h =>
      (h tail).bind fun v =>
        match (getFormat path).2 with
        | some f => applyFormat f v
        | none => Except.ok v
  | none => Except.error (unsupported_msg head p)

/-- One publish call handed to the broker collaborator (topic and payload;
qos and retain are process-wide constants independent of the dispatch
logic). -/
structure Publish where
  topic : List Char
  payload : PayloadResult
deriving DecidableEq

/-- `task[len(topic_prefix):]` when the task starts with the prefix. -/
def strip (pre s : List Char) : List Char :=
  if pre.isPrefixOf s then s.drop pre.length else s

/-- `topic if topic.startswith(topic_prefix) else topic_prefix + topic`. -/
def full_topic (pre s : List Char) : List Char :=
  if pre.isPrefixOf s then s else pre ++ s

/-- The fan-out validation error raised in `run_task`:
`Result of task '<task>' has several values but topic doesn't contain '*' char`. -/
def several_values_msg (task : List Char) : List Char :=
  "Result of task ".toList ++ [sq] ++ task ++ [sq]
    ++ " has several values but topic doesn".toList ++ [sq] ++ "t contain ".toList
    ++ [sq] ++ ['*'] ++ [sq] ++ " char".toList

/-- The `try` block of `run_task` (src/psmqtt.py lines 67-82): resolve,
validate fan-out, and compute the publishes.  Within the fan-out loops
`get_subtopic` cannot fail (the multi-topic check guarantees
`wildcard_index > 0`), so no partial-publish state is observable. -/
def run_task_body (t : Topic) (getv : List Char → Except (List Char) Value)
    (task : List Char) : Except (List Char) (List Publish) := do
  let payload ← getv task
  if (payload.isList || payload.isDict) && !t.is_multitopic then
    throw (several_values_msg task)
  match payload with
  | .list xs =>
      xs.enum.mapM fun iv => do
        let st ← t.get_subtopic (natRepr iv.1)
        pure ⟨st, payload_as_string iv.2⟩
  | .dict kvs =>
      kvs.mapM fun kv => do
        let st ← t.get_subtopic kv.1
        pure ⟨st, payload_as_string kv.2⟩
  | v => pure [⟨t.get_topic, payload_as_string v⟩]

/-- `run_task` (src/psmqtt.py lines 62-85).  The resolver (`get_value` with
its registry and formatter) is the abstract parameter `getv`.  Every failure
of the body is caught and turned into a single publish of the failure's
message to the error topic: `run_task` is total and never propagates a
failure to its caller. -/
def run_task (pre : List Char) (getv : List Char → Except (List Char) Value)
    (task0 topic0 : List Char) : List Publish :=
  let task := strip pre task0
  let t := mkTopic (full_topic pre topic0)
  match run_task_body t getv task with
  | .ok pubs => pubs
  | .error e => [⟨t.get_error_topic, .str e⟩]

/-- Startup schedule parsing (src/psmqtt.py lines 254-264).  `parse` models
`RecurringEvent().parse` paired with the parser's `is_recurring` flag;
`nextAfter` models `rrulestr(dt).after(now)` with time in integer seconds
(both come from third-party libraries, external collaborators of the core).
An entry is armed with delay `nextAfter dt now - now` exactly when its
expression parses as recurring; non-recurring entries are logged and
skipped, contributing nothing to the timer queue. -/
def startup_arm {S Dt Tasks : Type} (parse : S → Dt × Bool) (nextAfter : Dt → Int → Int)
    (now : Int) (schedule : List (S × Tasks)) : List (Int × Dt × Tasks) :=
  schedule.filterMap fun st =>
    if (parse st.1).2 then
      some (nextAfter (parse st.1).1 now - now, (parse st.1).1, st.2)
    else none

/-- The entries (recurrence rule, bound tasks) of the armed timer list. -/
def armed_entries {S Dt Tasks : Type} (parse : S → Dt × Bool) (nextAfter : Dt → Int → Int)
    (now : Int) (schedule : List (S × Tasks)) : List (Dt × Tasks) :=
  (startup_arm parse nextAfter now schedule).map (fun x => x.2)

/-- Fire traces of the scheduler loop: `on_timer` re-arms exactly the same
`(dt, tasks)` entry after each fire (src/psmqtt.py line 184), so the
collection of armed entries is invariant for the process lifetime; a fire
trace is any finite sequence of fires of armed entries. -/
inductive FireTrace {E : Type} (armed : List E) : List E → Prop where
  | nil : FireTrace armed []
  | fire (e : E) (fs : List E) : e ∈ armed → FireTrace armed fs → FireTrace armed (e :: fs)

theorem firstIdx_nil (c : Char) : firstIdx [] c = none := rfl

theorem firstIdx_cons_self (xs : List Char) (c : Char) :
    firstIdx (c :: xs) c = some 0 := by
  simp [firstIdx]

theorem firstIdx_cons_ne (x : Char) (xs : List Char) (c : Char) (h : x ≠ c) :
    firstIdx (x :: xs) c = (firstIdx xs c).map (· + 1) := by
  simp [firstIdx, h]

theorem firstIdx_eq_none (s : List Char) (c : Char) (h : c ∉ s) :
    firstIdx s c = none := by
  induction s with
  | nil => rfl
  | cons x xs ih =>
    have hx : x ≠ c := fun hxc => h (hxc ▸ List.mem_cons_self x xs)
    have hxs : c ∉ xs := fun hm => h (List.mem_cons_of_mem x hm)
    simp [firstIdx, hx, ih hxs]

theorem firstIdx_append (u v : List Char) (c : Char) (h : c ∉ u) :
    firstIdx (u ++ v) c = (firstIdx v c).map (u.length + ·) := by
  induction u with
  | nil =>
    cases hv : firstIdx v c <;> simp [hv]
  | cons x xs ih =>
    have hx : x ≠ c := fun hxc => h (hxc ▸ List.mem_cons_self x xs)
    have hxs : c ∉ xs := fun hm => h (List.mem_cons_of_mem x hm)
    cases hv : firstIdx v c <;>
      simp [firstIdx, hx, ih hxs, hv, Nat.add_comm, Nat.add_assoc, Nat.add_left_comm]

theorem firstIdx_get (s : List Char) (c : Char) (j : Nat)
    (h : firstIdx s c = some j) : s[j]? = some c := by
  induction s generalizing j with
  | nil => simp [firstIdx] at h
  | cons x xs ih =>
    by_cases hx : x = c
    · subst hx
      rw [firstIdx_cons_self] at h
      cases h
      simp
    · rw [firstIdx_cons_ne x xs c hx] at h
      cases hj : firstIdx xs c with
      | none => rw [hj] at h; simp at h
      | some j0 =>
        rw [hj] at h
        simp at h
        subst h
        simpa using ih j0 hj

theorem firstIdx_lt_length (s : List Char) (c : Char) (j : Nat)
    (h : firstIdx s c = some j) : j < s.length := by
  have := firstIdx_get s c j h
  exact (List.getElem?_eq_some.mp this).1

theorem firstIdx_min (s : List Char) (c : Char) (j : Nat)
    (h : firstIdx s c = some j) : ∀ k, k < j → s[k]? ≠ some c := by
  induction s generalizing j with
  | nil => simp [firstIdx] at h
  | cons x xs ih =>
    by_cases hx : x = c
    · subst hx; rw [firstIdx_cons_self] at h; cases h; omega
    · rw [firstIdx_cons_ne x xs c hx] at h
      cases hj : firstIdx xs c with
      | none => rw [hj] at h; simp at h
      | some j0 =>
        rw [hj] at h
        simp at h
        subst h
        intro k hk
        cases k with
        | zero => simpa using hx
        | succ k0 => simpa using ih j0 hj k0 (by omega)

theorem firstIdx_of_first (s : List Char) (c : Char) (i : Nat)
    (hi : s[i]? = some c) (hmin : ∀ k, k < i → s[k]? ≠ some c) :
    firstIdx s c = some i := by
  induction s generalizing i with
  | nil => simp at hi
  | cons x xs ih =>
    cases i with
    | zero =>
      simp at hi
      simp [firstIdx, hi]
    | succ i0 =>
      have hx : x ≠ c := by
        have := hmin 0 (by omega)
        simpa using this
      rw [firstIdx_cons_ne x xs c hx]
      have hxs : xs[i0]? = some c := by simpa using hi
      have hxsmin : ∀ k, k < i0 → xs[k]? ≠ some c := by
        intro k hk
        have := hmin (k + 1) (by omega)
        simpa using this
      rw [ih i0 hxs hxsmin]
      rfl

theorem pyStart_ofNat (s : List Char) (m : Nat) : pyStart s (m : Int) = m := by
  simp [pyStart]

theorem pyStart_neg_one (s : List Char) : pyStart s (-1) = s.length - 1 := by
  simp [pyStart]
  omega

theorem pyFind_eq_of_nonneg (s : List Char) (c : Char) (m : Nat) :
    pyFind s c (m : Int) =
      (match firstIdx (s.drop m) c with
       | some j => ((m + j : Nat) : Int)
       | none => -1) := by
  rw [pyFind, pyStart_ofNat]

theorem pyFind_neg_or_nonneg (s : List Char) (c : Char) (k : Int) :
    pyFind s c k = -1 ∨ 0 ≤ pyFind s c k := by
  rw [pyFind]
  cases h : firstIdx (s.drop (pyStart s k)) c with
  | none => simp
  | some j => right; positivity

theorem pyFind_ge (s : List Char) (c : Char) (k : Int) (hk : 0 ≤ k)
    (h : 0 ≤ pyFind s c k) : k ≤ pyFind s c k := by
  rw [pyFind] at *
  cases hf : firstIdx (s.drop (pyStart s k)) c with
  | none => simp [hf] at h
  | some j =>
    simp only [hf]
    have : pyStart s k = k.toNat := by
      simp [pyStart]
      omega
    rw [this]
    omega

theorem pyFind_char (s : List Char) (c : Char) (k : Int)
    (h : 0 ≤ pyFind s c k) : s[(pyFind s c k).toNat]? = some c := by
  rw [pyFind] at *
  cases hf : firstIdx (s.drop (pyStart s k)) c with
  | none => simp [hf] at h
  | some j =>
    simp only [hf]
    have hget := firstIdx_get _ c j hf
    rw [List.getElem?_drop] at hget
    simpa using hget

theorem pyFind_lt_length (s : List Char) (c : Char) (k : Int)
    (h : 0 ≤ pyFind s c k) : pyFind s c k < (s.length : Int) := by
  have hc := pyFind_char s c k h
  have := (List.getElem?_eq_some.mp hc).1
  omega

theorem pyFind_neg_one (s : List Char) (c : Char)
    (h : 0 ≤ pyFind s c (-1)) : pyFind s c (-1) = (s.length : Int) - 1 := by
  rw [pyFind, pyStart_neg_one] at *
  cases hf : firstIdx (s.drop (s.length - 1)) c with
  | none => simp [hf] at h
  | some j =>
    have hj : j < (s.drop (s.length - 1)).length := firstIdx_lt_length _ c j hf
    rw [List.length_drop] at hj
    simp only [hf]
    have : j = 0 := by omega
    subst this
    have hlen : 1 ≤ s.length := by omega
    omega

theorem wildLen_one_le (topic : List Char) (start : Int) : 1 ≤ wildLen topic start := by
  rw [wildLen]
  split <;> omega

theorem auxStep_beyond (topic : List Char) (rec : Int → Option (Int × Int)) (start : Int)
    (h1 : ¬ start < (topic.length : Int)) :
    auxStep topic rec start = some (-1, -1) := by
  rw [auxStep, if_neg h1]

theorem auxStep_no_star (topic : List Char) (rec : Int → Option (Int × Int)) (start : Int)
    (h1 : start < (topic.length : Int)) (h2 : pyFind topic '*' start < 0) :
    auxStep topic rec start = some (-1, -1) := by
  rw [auxStep, if_pos h1, if_pos h2]

theorem auxStep_bracket (topic : List Char) (rec : Int → Option (Int × Int)) (start : Int)
    (h1 : start < (topic.length : Int)) (h2 : ¬ pyFind topic '*' start < 0)
    (h3 : 0 ≤ pyFind topic '[' start ∧ pyFind topic '[' start < pyFind topic '*' start) :
    auxStep topic rec start = rec (pyFind topic ']' (pyFind topic '[' start)) := by
  rw [auxStep, if_pos h1, if_neg h2, if_pos h3]

theorem auxStep_escape (topic : List Char) (rec : Int → Option (Int × Int)) (start : Int)
    (h1 : start < (topic.length : Int)) (h2 : ¬ pyFind topic '*' start < 0)
    (h3 : ¬ (0 ≤ pyFind topic '[' start ∧ pyFind topic '[' start < pyFind topic '*' start))
    (h4 : pyFind topic '*' start + wildLen topic start < (topic.length : Int)
        ∧ topic[(pyFind topic '*' start + wildLen topic start).toNat]? = some ';') :
    auxStep topic rec start = rec (pyFind topic '*' start + wildLen topic start) := by
  rw [auxStep, if_pos h1, if_neg h2, if_neg h3, if_pos h4]

theorem auxStep_found (topic : List Char) (rec : Int → Option (Int × Int)) (start : Int)
    (h1 : start < (topic.length : Int)) (h2 : ¬ pyFind topic '*' start < 0)
    (h3 : ¬ (0 ≤ pyFind topic '[' start ∧ pyFind topic '[' start < pyFind topic '*' start))
    (h4 : ¬ (pyFind topic '*' start + wildLen topic start < (topic.length : Int)
        ∧ topic[(pyFind topic '*' start + wildLen topic start).toNat]? = some ';')) :
    auxStep topic rec start = some (pyFind topic '*' start, wildLen topic start) := by
  rw [auxStep, if_pos h1, if_neg h2, if_neg h3, if_neg h4]

theorem find_wildcardAux_succ (topic : List Char) (fuel : Nat) (start : Int) :
    find_wildcardAux topic (fuel + 1) start
      = auxStep topic (find_wildcardAux topic fuel) start := rfl

theorem find_wildcardAux_neg_one (topic : List Char) (fuel : Nat) :
    ∃ r, find_wildcardAux topic (fuel + 1) (-1) = some r := by
  rw [find_wildcardAux_succ]
  by_cases hlen : (-1 : Int) < (topic.length : Int)
  · by_cases hwi : pyFind topic '*' (-1) < 0
    · exact ⟨_, auxStep_no_star topic _ _ hlen hwi⟩
    · have hwi0 : 0 ≤ pyFind topic '*' (-1) := by omega
      have hwieq : pyFind topic '*' (-1) = (topic.length : Int) - 1 :=
        pyFind_neg_one topic '*' hwi0
      have hbr : ¬ (0 ≤ pyFind topic '[' (-1) ∧ pyFind topic '[' (-1) < pyFind topic '*' (-1)) := by
        rintro ⟨hbi0, hbilt⟩
        have := pyFind_neg_one topic '[' hbi0
        omega
      have hesc : ¬ (pyFind topic '*' (-1) + wildLen topic (-1) < (topic.length : Int)
          ∧ topic[(pyFind topic '*' (-1) + wildLen topic (-1)).toNat]? = some ';') := by
        rintro ⟨hlt, _⟩
        have := wildLen_one_le topic (-1)
        omega
      exact ⟨_, auxStep_found topic _ _ hlen hwi hbr hesc⟩
  · exact ⟨_, auxStep_beyond topic _ _ hlen⟩

theorem find_wildcardAux_total_aux (topic : List Char) :
    ∀ (fuel : Nat) (k : Int), 0 ≤ k → 1 ≤ fuel →
      (topic.length : Int) + 2 ≤ k + fuel →
      ∃ r, find_wildcardAux topic fuel k = some r := by
  intro fuel
  induction fuel with
  | zero => intro k _ h1 _; omega
  | succ f ih =>
    intro k hk _ hfuel
    rw [find_wildcardAux_succ]
    by_cases hlen : k < (topic.length : Int)
    · by_cases hwi : pyFind topic '*' k < 0
      · exact ⟨_, auxStep_no_star topic _ k hlen hwi⟩
      · have hwi0 : 0 ≤ pyFind topic '*' k := by omega
        have hwige : k ≤ pyFind topic '*' k := pyFind_ge topic '*' k hk hwi0
        by_cases hbr : 0 ≤ pyFind topic '[' k ∧ pyFind topic '[' k < pyFind topic '*' k
        · rw [auxStep_bracket topic _ k hlen hwi hbr]
          have hbige : k ≤ pyFind topic '[' k := pyFind_ge topic '[' k hk hbr.1
          rcases pyFind_neg_or_nonneg topic ']' (pyFind topic '[' k) with hcb | hcb
          · rw [hcb]
            have hf1 : 1 ≤ f := by omega
            obtain ⟨f0, rfl⟩ : ∃ f0, f = f0 + 1 := ⟨f - 1, by omega⟩
            exact find_wildcardAux_neg_one topic f0
          · have hne : pyFind topic ']' (pyFind topic '[' k) ≠ pyFind topic '[' k := by
              intro he
              have h1 := pyFind_char topic ']' (pyFind topic '[' k) hcb
              have h2 := pyFind_char topic '[' k hbr.1
              rw [he] at h1
              rw [h1] at h2
              simp at h2
            have hgt : pyFind topic '[' k ≤ pyFind topic ']' (pyFind topic '[' k) :=
              pyFind_ge topic ']' (pyFind topic '[' k) hbr.1 hcb
            exact ih (pyFind topic ']' (pyFind topic '[' k)) hcb (by omega) (by omega)
        · by_cases hesc : pyFind topic '*' k + wildLen topic k < (topic.length : Int)
              ∧ topic[(pyFind topic '*' k + wildLen topic k).toNat]? = some ';'
          · rw [auxStep_escape topic _ k hlen hwi hbr hesc]
            have hwl1 := wildLen_one_le topic k
            exact ih (pyFind topic '*' k + wildLen topic k) (by omega) (by omega) (by omega)
          · exact ⟨_, auxStep_found topic _ k hlen hwi hbr hesc⟩
    · exact ⟨_, auxStep_beyond topic _ k hlen⟩

theorem find_wildcardAux_total (topic : List Char) :
    ∃ r, find_wildcardAux topic (topic.length + 2) 0 = some r :=
  find_wildcardAux_total_aux topic (topic.length + 2) 0 (by omega) (by omega) (by omega)

theorem find_wildcard_eq_aux (topic : List Char) :
    find_wildcardAux topic (topic.length + 2) 0 = some (find_wildcard topic) := by
  obtain ⟨r, hr⟩ := find_wildcardAux_total topic
  rw [find_wildcard, hr]
  rfl

/-- Every `some` result of the loop with nonnegative offset points at a `*`
character of the topic. -/
theorem find_wildcardAux_star (topic : List Char) :
    ∀ (fuel : Nat) (k : Int) (i l : Int),
      find_wildcardAux topic fuel k = some (i, l) → 0 ≤ i →
      topic[i.toNat]? = some '*' := by
  intro fuel
  induction fuel with
  | zero => intro k i l h _; simp [find_wildcardAux] at h
  | succ f ih =>
    intro k i l h hi
    rw [find_wildcardAux_succ] at h
    by_cases hlen : k < (topic.length : Int)
    · by_cases hwi : pyFind topic '*' k < 0
      · rw [auxStep_no_star topic _ k hlen hwi] at h
        simp at h
        omega
      · by_cases hbr : 0 ≤ pyFind topic '[' k ∧ pyFind topic '[' k < pyFind topic '*' k
        · rw [auxStep_bracket topic _ k hlen hwi hbr] at h
          exact ih _ i l h hi
        · by_cases hesc : pyFind topic '*' k + wildLen topic k < (topic.length : Int)
              ∧ topic[(pyFind topic '*' k + wildLen topic k).toNat]? = some ';'
          · rw [auxStep_escape topic _ k hlen hwi hbr hesc] at h
            exact ih _ i l h hi
          · rw [auxStep_found topic _ k hlen hwi hbr hesc] at h
            simp at h
            rw [← h.1]
            exact pyFind_char topic '*' k (by omega)
    · rw [auxStep_beyond topic _ k hlen] at h
      simp at h
      omega

theorem find_wildcard_star (topic : List Char) (i l : Int)
    (h : find_wildcard topic = (i, l)) (hi : 0 ≤ i) :
    topic[i.toNat]? = some '*' := by
  have := find_wildcard_eq_aux topic
  rw [h] at this
  exact find_wildcardAux_star topic (topic.length + 2) 0 i l this hi

theorem find_wildcard_lt_length (topic : List Char) (i l : Int)
    (h : find_wildcard topic = (i, l)) (hi : 0 ≤ i) :
    i < (topic.length : Int) := by
  have hc := find_wildcard_star topic i l h hi
  have := (List.getElem?_eq_some.mp hc).1
  omega

theorem firstIdx_marker (u v : List Char) (c : Char) (hu : c ∉ u) :
    firstIdx (u ++ c :: v) c = some u.length := by
  rw [firstIdx_append u _ c hu, firstIdx_cons_self]
  rfl

theorem pyFind_found (s : List Char) (c : Char) (m j : Nat)
    (h : firstIdx (s.drop m) c = some j) :
    pyFind s c (m : Int) = ((m + j : Nat) : Int) := by
  rw [pyFind_eq_of_nonneg, h]

theorem pyFind_missing (s : List Char) (c : Char) (m : Nat)
    (h : firstIdx (s.drop m) c = none) :
    pyFind s c (m : Int) = -1 := by
  rw [pyFind_eq_of_nonneg, h]

theorem plain_star {l : List Char} (h : plain l) : '*' ∉ l :=
  fun hm => (h _ hm).1 rfl

theorem plain_lb {l : List Char} (h : plain l) : '[' ∉ l :=
  fun hm => (h _ hm).2.1 rfl

theorem plain_rb {l : List Char} (h : plain l) : ']' ∉ l :=
  fun hm => (h _ hm).2.2 rfl

/-- C10: the wildcard scan terminates for every input topic string,
including strings containing a `[` with no matching `]` (where the resume
position becomes `-1`) and strings ending in escaped markers: within
`topic.length + 2` iterations the loop returns a result, which is what
`find_wildcard` reports. -/
theorem find_wildcard_terminates (topic : List Char) :
    ∃ r : Int × Int, find_wildcardAux topic (topic.length + 2) 0 = some r
      ∧ find_wildcard topic = r := by
  obtain ⟨r, hr⟩ := find_wildcardAux_total topic
  exact ⟨r, hr, by rw [find_wildcard, hr]; rfl⟩

/-- C2: when the recognized wildcard of a template is at offset `i` with
length `L`, `get_subtopic` with substitution `s` returns
`raw[:i] + s + raw[i+L:]`; when the template has no recognized wildcard
(sentinel offset `-1`), `get_subtopic` fails with an error. -/
theorem get_subtopic_spec (raw s : List Char) (i L : Int)
    (h : find_wildcard raw = (i, L)) :
    (0 ≤ i → (mkTopic raw).get_subtopic s
        = Except.ok (raw.take i.toNat ++ s ++ raw.drop (i + L).toNat))
    ∧ (i < 0 → ∃ e, (mkTopic raw).get_subtopic s = Except.error e) := by
  have hw : (mkTopic raw).wildcard_index = i := by rw [mkTopic, h]
  have hl : (mkTopic raw).wildcard_len = L := by rw [mkTopic, h]
  have ht : (mkTopic raw).topic = raw := rfl
  constructor
  · intro hi
    rw [Topic.get_subtopic, hw, hl, ht, if_neg (by omega)]
  · intro hi
    exact ⟨_, by rw [Topic.get_subtopic, hw, ht, if_pos hi]⟩

theorem get_subtopic_spec_witness :
    ((mkTopic "a*b".toList).get_subtopic "X".toList = Except.ok "aXb".toList)
    ∧ ∃ e, (mkTopic "ab".toList).get_subtopic "X".toList = Except.error e := by
  constructor
  · have h := (get_subtopic_spec "a*b".toList "X".toList 1 1 (by decide)).1 (by decide)
    rw [h]
    rfl
  · exact (get_subtopic_spec "ab".toList "X".toList (-1) (-1) (by decide)).2 (by decide)

/-- C3: encoding the one-element sequence `[v]` of a scalar `v` yields the
same wire string as encoding `v` directly; sequences of length other than 1
are JSON-encoded as arrays. -/
theorem payload_singleton_unwrap :
    (∀ v : Value, isScalar v = true →
        payload_as_string (.list [v]) = payload_as_string v)
    ∧ (∀ xs : List Value, xs.length ≠ 1 →
        payload_as_string (.list xs) = .str (jdump (.list xs))) := by
  constructor
  · intro v _
    rfl
  · intro xs hxs
    match xs with
    | [] => rfl
    | [v] => exact absurd rfl hxs
    | v :: w :: rest => rfl

theorem payload_singleton_unwrap_witness :
    payload_as_string (.list [.int 42]) = payload_as_string (.int 42)
    ∧ payload_as_string (.int 42) = .str "42".toList
    ∧ payload_as_string (.list [.int 1, .int 2]) = .str (jdump (.list [.int 1, .int 2])) :=
  ⟨payload_singleton_unwrap.1 (.int 42) (by decide), by decide,
    payload_singleton_unwrap.2 [.int 1, .int 2] (by decide)⟩

theorem append_error_ne (l : List Char) : l ++ "/error".toList ≠ l := by
  intro h
  have := congrArg List.length h
  simp at this

/-- C1: when the resolved value is a list or mapping and the topic template
is not multi-valued, `run_task` publishes exactly one message, the failure
message, to the error topic (the raw topic with `/error` appended) and not
to the main topic; likewise any resolution failure is published to the
error topic; in both cases `run_task` returns normally (it is a total
function into publish lists, so no failure propagates to its caller). -/
theorem run_task_failure_terminal (pre task0 topic0 : List Char)
    (getv : List Char → Except (List Char) Value) :
    (∀ v : Value, getv (strip pre task0) = Except.ok v →
      (v.isList || v.isDict) = true →
      (mkTopic (full_topic pre topic0)).is_multitopic = false →
      run_task pre getv task0 topic0
        = [⟨(mkTopic (full_topic pre topic0)).get_error_topic,
            .str (several_values_msg (strip pre task0))⟩]
        ∧ (mkTopic (full_topic pre topic0)).get_error_topic
            ≠ (mkTopic (full_topic pre topic0)).get_topic)
    ∧ (∀ e : List Char, getv (strip pre task0) = Except.error e →
      run_task pre getv task0 topic0
        = [⟨(mkTopic (full_topic pre topic0)).get_error_topic, .str e⟩]) := by
  constructor
  · intro v hv hseq hmult
    have hbody : run_task_body (mkTopic (full_topic pre topic0)) getv (strip pre task0)
        = Except.error (several_values_msg (strip pre task0)) := by
      rw [run_task_body, hv]
      simp [hseq, hmult, throw, throwThe, MonadExceptOf.throw, Bind.bind, Except.bind]
    constructor
    · rw [run_task, hbody]
    · exact append_error_ne _
  · intro e hv
    have hbody : run_task_body (mkTopic (full_topic pre topic0)) getv (strip pre task0)
        = Except.error e := by
      rw [run_task_body, hv]
      rfl
    rw [run_task, hbody]

theorem run_task_failure_terminal_witness :
    (run_task "p/".toList (fun _ => Except.ok (.dict [(['k'], .int 1)])) "p/x".toList "t".toList
       = [⟨(mkTopic (full_topic "p/".toList "t".toList)).get_error_topic,
           .str (several_values_msg (strip "p/".toList "p/x".toList))⟩])
    ∧ (run_task "p/".toList (fun _ => Except.error "boom".toList) "x".toList "t".toList
       = [⟨(mkTopic (full_topic "p/".toList "t".toList)).get_error_topic, .str "boom".toList⟩]) := by
  constructor
  · exact ((run_task_failure_terminal "p/".toList "p/x".toList "t".toList
      (fun _ => Except.ok (.dict [(['k'], .int 1)]))).1
      (.dict [(['k'], .int 1)]) rfl (by decide) (by decide)).1
  · exact (run_task_failure_terminal "p/".toList "x".toList "t".toList
      (fun _ => Except.error "boom".toList)).2 "boom".toList rfl

/-- C8: the resolver splits the (format-stripped) path into head and tail
at the first `/`, the tail defaulting to the empty string when no separator
is present; it fails with the error naming the head exactly when the head
has no registered handler, and otherwise returns the registered handler's
result for the tail, with the optional format directive applied. -/
theorem get_value_head_lookup (hs : List (List Char × Handler))
    (gf : List Char → List Char × Option (List Char))
    (af : List Char → Value → Except (List Char) Value) (path : List Char) :
    (('/' ∉ (gf path).1 → split (gf path).1 = ((gf path).1, []))
      ∧ (∀ i : Nat, (gf path).1[i]? = some '/' →
          (∀ j, j < i → (gf path).1[j]? ≠ some '/') →
          split (gf path).1 = ((gf path).1.take i, (gf path).1.drop (i + 1))))
    ∧ (hs.lookup (split (gf path).1).1 = none →
        get_value hs gf af path
          = Except.error (unsupported_msg (split (gf path).1).1 (gf path).1))
    ∧ (∀ h : Handler, hs.lookup (split (gf path).1).1 = some h →
        get_value hs gf af path
          = (h (split (gf path).1).2).bind fun v =>
              match (gf path).2 with
              | some f => af f v
              | none => Except.ok v) := by
  refine ⟨⟨?_, ?_⟩, ?_, ?_⟩
  · intro hmem
    rw [split, firstIdx_eq_none _ _ hmem]
  · intro i hi hmin
    rw [split, firstIdx_of_first _ _ i hi hmin]
  · intro hnone
    rw [get_value, hnone]
  · intro h hsome
    rw [get_value, hsome]

theorem get_value_head_lookup_witness :
    (split (((fun s => (s, (none : Option (List Char)))) "cpu/percent".toList).1)
       = ("cpu/percent".toList.take 3, "cpu/percent".toList.drop 4))
    ∧ (get_value [("cpu".toList, fun tl => Except.ok (.str tl))]
        (fun s => (s, none)) (fun _ v => Except.ok v) "cpu/percent".toList
       = ((fun tl => Except.ok (Value.str tl)) "percent".toList).bind fun v =>
           Except.ok v)
    ∧ (get_value [] (fun s => (s, (none : Option (List Char))))
        (fun _ v => Except.ok v) "cpu/percent".toList
       = Except.error (unsupported_msg "cpu".toList "cpu/percent".toList)) := by
  refine ⟨?_, ?_, ?_⟩
  · exact (get_value_head_lookup [] (fun s => (s, none))
      (fun _ v => Except.ok v) "cpu/percent".toList).1.2 3 (by decide) (by decide)
  · have h := (get_value_head_lookup [("cpu".toList, fun tl => Except.ok (.str tl))]
      (fun s => (s, none)) (fun _ v => Except.ok v) "cpu/percent".toList).2.2
      (fun tl => Except.ok (.str tl)) rfl
    rw [h]
    rfl
  · have h := (get_value_head_lookup [] (fun s => (s, none))
      (fun _ v => Except.ok v) "cpu/percent".toList).2.1 rfl
    rw [h]
    rfl

/-- C9: a configured schedule entry whose expression does not parse as
recurring is skipped at startup — it contributes nothing to the armed timer
list, and since the scheduler only ever fires (and re-arms) armed entries,
it produces zero fires for the process lifetime; a recurring entry is armed
with the delay to the rule's next occurrence after now. -/
theorem schedule_skip_nonrecurring {S Dt Tasks : Type}
    (parse : S → Dt × Bool) (nextAfter : Dt → Int → Int) (now : Int)
    (schedule : List (S × Tasks)) :
    (startup_arm parse nextAfter now schedule
       = startup_arm parse nextAfter now (schedule.filter fun st => (parse st.1).2))
    ∧ (∀ s ts, (s, ts) ∈ schedule → (parse s).2 = true →
        (nextAfter (parse s).1 now - now, (parse s).1, ts)
          ∈ startup_arm parse nextAfter now schedule)
    ∧ (∀ fs, FireTrace (armed_entries parse nextAfter now schedule) fs →
        ∀ e ∈ fs, e ∈ armed_entries parse nextAfter now schedule)
    ∧ ((∀ st ∈ schedule, (parse st.1).2 = false) →
        startup_arm parse nextAfter now schedule = []
          ∧ ∀ fs, FireTrace ([] : List (Dt × Tasks)) fs → fs = []) := by
  refine ⟨?_, ?_, ?_, ?_⟩
  · induction schedule with
    | nil => rfl
    | cons st rest ih =>
      by_cases hp : (parse st.1).2
      · simp only [startup_arm, List.filter_cons, hp, if_pos, List.filterMap_cons] at *
        simp [hp, ih]
      · simp only [startup_arm, List.filter_cons, hp, List.filterMap_cons] at *
        simp [hp, ih]
  · intro s ts hmem hrec
    exact List.mem_filterMap.mpr ⟨(s, ts), hmem, by simp [hrec]⟩
  · intro fs hft
    induction hft with
    | nil => intro e he; simp at he
    | fire e0 fs0 hmem _ ih =>
      intro e he
      rcases List.mem_cons.mp he with rfl | h
      · exact hmem
      · exact ih e h
  · intro hall
    constructor
    · induction schedule with
      | nil => rfl
      | cons st rest ih =>
        have hp := hall st (List.mem_cons_self st rest)
        simp only [startup_arm, List.filterMap_cons, hp]
        exact ih fun st0 h0 => hall st0 (List.mem_cons_of_mem st h0)
    · intro fs hft
      cases hft with
      | nil => rfl
      | fire e0 fs0 hmem _ => simp at hmem

theorem schedule_skip_nonrecurring_witness :
    ((4, 1, 7) ∈ startup_arm (fun n : Nat => (n, decide (n = 1)))
        (fun d t => d + t + 3) 10 [(0, 5), (1, 7)])
    ∧ (startup_arm (fun n : Nat => (n, decide (n = 1)))
        (fun d t => d + t + 3) 10 [((0 : Nat), (5 : Nat))] = []) := by
  constructor
  · have h := (schedule_skip_nonrecurring (fun n : Nat => (n, decide (n = 1)))
      (fun d t => d + t + 3) 10 [(0, 5), (1, 7)]).2.1 1 7 (by decide) (by decide)
    simpa using h
  · exact ((schedule_skip_nonrecurring (fun n : Nat => (n, decide (n = 1)))
      (fun d t => d + t + 3) 10 [((0 : Nat), (5 : Nat))]).2.2.2 (by decide)).1

theorem getElem?_append_cons (u w : List Char) (x : Char) (k : Nat) :
    (u ++ x :: w)[u.length + k]? = (x :: w)[k]? := by
  rw [List.getElem?_append_right (by omega)]
  congr 1
  omega

/-- C4 (counterexample): the topic `[*]*` contains a bracketed expression
`[*]` enclosing a literal `*`, yet the wildcard scan reports a wildcard
(the second `*`, outside the brackets, at offset 3), so the claim fails as
stated for all topic strings. -/
theorem bracketed_star_cex :
    find_wildcard ('[' :: '*' :: ']' :: '*' :: []) = (3, 1)
    ∧ find_wildcard ('[' :: '*' :: ']' :: '*' :: []) ≠ (-1, -1) :=
  ⟨by decide, by decide⟩

/-- C4 (amended): for every topic string that is a bracketed expression
enclosing its only `*` — of the form `a ++ "[" ++ b ++ "*" ++ c ++ "]" ++ d`
with `a`, `b`, `c`, `d` containing none of `*`, `[`, `]` — the wildcard scan
reports no wildcard: on seeing the `[` before the `*`, the scan skips to the
`]` and resumes there, finding nothing. -/
theorem bracketed_star_no_wildcard (a b c d : List Char)
    (ha : plain a) (hb : plain b) (hc : plain c) (hd : plain d) :
    find_wildcard (a ++ '[' :: (b ++ '*' :: (c ++ ']' :: d))) = (-1, -1) := by
  set topic := a ++ '[' :: (b ++ '*' :: (c ++ ']' :: d)) with htopic
  have hlen : topic.length = a.length + b.length + c.length + d.length + 3 := by
    rw [htopic]
    simp
    omega
  have hstar : firstIdx topic '*' = some (a.length + (b.length + 1)) := by
    rw [htopic, firstIdx_append a _ '*' (plain_star ha),
        firstIdx_cons_ne '[' _ '*' (by decide),
        firstIdx_marker b _ '*' (plain_star hb)]
    rfl
  have hwi : pyFind topic '*' 0 = ((a.length + (b.length + 1) : Nat) : Int) := by
    have h0 := pyFind_found topic '*' 0 (a.length + (b.length + 1))
      (by rw [List.drop_zero]; exact hstar)
    simpa using h0
  have hbra : firstIdx topic '[' = some a.length := by
    rw [htopic]
    exact firstIdx_marker a _ '[' (plain_lb ha)
  have hbi : pyFind topic '[' 0 = (a.length : Int) := by
    have h0 := pyFind_found topic '[' 0 a.length (by rw [List.drop_zero]; exact hbra)
    simpa using h0
  have hdrop1 : topic.drop a.length = '[' :: (b ++ '*' :: (c ++ ']' :: d)) := by
    rw [htopic]
    exact List.drop_left a _
  have hrb : firstIdx (topic.drop a.length) ']' = some ((b.length + (c.length + 1)) + 1) := by
    rw [hdrop1, firstIdx_cons_ne '[' _ ']' (by decide),
        firstIdx_append b _ ']' (plain_rb hb),
        firstIdx_cons_ne '*' _ ']' (by decide),
        firstIdx_marker c _ ']' (plain_rb hc)]
    rfl
  have hcb : pyFind topic ']' (a.length : Int)
      = ((a.length + ((b.length + (c.length + 1)) + 1) : Nat) : Int) :=
    pyFind_found topic ']' a.length _ hrb
  have hassoc : topic = (a ++ '[' :: (b ++ '*' :: c)) ++ (']' :: d) := by
    rw [htopic]
    simp
  have hplen : (a ++ '[' :: (b ++ '*' :: c)).length
      = a.length + ((b.length + (c.length + 1)) + 1) := by
    simp
  have hdrop2 : topic.drop (a.length + ((b.length + (c.length + 1)) + 1)) = ']' :: d := by
    rw [hassoc, ← hplen, List.drop_left]
  have hmiss : firstIdx (topic.drop (a.length + ((b.length + (c.length + 1)) + 1))) '*'
      = none := by
    rw [hdrop2, firstIdx_cons_ne ']' _ '*' (by decide), firstIdx_eq_none d '*' (plain_star hd)]
    rfl
  have hwi2 : pyFind topic '*' ((a.length + ((b.length + (c.length + 1)) + 1) : Nat) : Int)
      = -1 := pyFind_missing topic '*' _ hmiss
  have h1 : (0 : Int) < (topic.length : Int) := by omega
  have h2 : ¬ pyFind topic '*' 0 < 0 := by omega
  have h3 : 0 ≤ pyFind topic '[' 0 ∧ pyFind topic '[' 0 < pyFind topic '*' 0 := by
    constructor <;> omega
  rw [find_wildcard, show topic.length + 2 = (topic.length + 1) + 1 from rfl,
      find_wildcardAux_succ, auxStep_bracket topic _ 0 h1 h2 h3, hbi, hcb,
      find_wildcardAux_succ,
      auxStep_no_star topic _ _ (by omega) (by omega)]
  rfl

theorem bracketed_star_no_wildcard_witness :
    plain "x".toList ∧ find_wildcard "x[y*z]w".toList = (-1, -1) :=
  ⟨by decide,
    bracketed_star_no_wildcard "x".toList "y".toList "z".toList "w".toList
      (by decide) (by decide) (by decide) (by decide)⟩

/-- C5 (counterexample): the topic `*;*` contains the escaped marker `*;`,
yet the wildcard scan reports a wildcard (the second, unescaped `*` at
offset 2), so the claim fails as stated for all topic strings. -/
theorem escaped_star_cex :
    find_wildcard ('*' :: ';' :: '*' :: []) = (2, 1)
    ∧ find_wildcard ('*' :: ';' :: '*' :: []) ≠ (-1, -1) :=
  ⟨by decide, by decide⟩

/-- C5 (amended): for every topic string whose only `*`s form a single
escaped marker `*;` (or `**;`) — `a ++ "*;" ++ b` or `a ++ "**;" ++ b` with
no `*` or `[` in `a` and no `*` in `b` — the wildcard scan reports no
wildcard: the escaped occurrence is skipped as a literal and the rest of
the string holds no further marker. -/
theorem escaped_star_no_wildcard (a b : List Char)
    (ha : '*' ∉ a) (hal : '[' ∉ a) (hb : '*' ∉ b) :
    find_wildcard (a ++ '*' :: ';' :: b) = (-1, -1)
    ∧ find_wildcard (a ++ '*' :: '*' :: ';' :: b) = (-1, -1) := by
  constructor
  · set topic := a ++ '*' :: ';' :: b with htopic
    have hlen : topic.length = a.length + b.length + 2 := by
      rw [htopic]
      simp
      omega
    have hstar : firstIdx topic '*' = some a.length := by
      rw [htopic]
      exact firstIdx_marker a _ '*' ha
    have hwi : pyFind topic '*' 0 = (a.length : Int) := by
      have h0 := pyFind_found topic '*' 0 a.length (by rw [List.drop_zero]; exact hstar)
      simpa using h0
    have hidx1 : topic[((a.length : Int) + 1).toNat]? = some ';' := by
      have hc : ((a.length : Int) + 1).toNat = a.length + 1 := by omega
      rw [hc, htopic, getElem?_append_cons a _ '*' 1]
      simp
    have hbr : ¬ (0 ≤ pyFind topic '[' 0 ∧ pyFind topic '[' 0 < pyFind topic '*' 0) := by
      rintro ⟨hb0, hblt⟩
      have hchar := pyFind_char topic '[' 0 hb0
      have hlt : (pyFind topic '[' 0).toNat < a.length := by omega
      rw [htopic, List.getElem?_append, if_pos hlt] at hchar
      obtain ⟨hn, he⟩ := List.getElem?_eq_some.mp hchar
      exact hal (he ▸ List.getElem_mem hn)
    have hwl : wildLen topic 0 = 1 := by
      rw [wildLen, hwi, if_neg]
      rintro ⟨_, hx⟩
      rw [hidx1] at hx
      simp at hx
    have hesc : pyFind topic '*' 0 + wildLen topic 0 < (topic.length : Int)
        ∧ topic[(pyFind topic '*' 0 + wildLen topic 0).toNat]? = some ';' := by
      refine ⟨by omega, ?_⟩
      rw [hwi, hwl]
      exact hidx1
    have hdropE : topic.drop (a.length + 1) = ';' :: b := by
      rw [htopic, show a ++ '*' :: ';' :: b = (a ++ ['*']) ++ ';' :: b by simp,
          show a.length + 1 = (a ++ ['*']).length by simp, List.drop_left]
    have hmE : firstIdx (topic.drop (a.length + 1)) '*' = none := by
      rw [hdropE, firstIdx_cons_ne ';' _ '*' (by decide), firstIdx_eq_none b '*' hb]
      rfl
    have hwiE : pyFind topic '*' ((a.length + 1 : Nat) : Int) = -1 :=
      pyFind_missing topic '*' _ hmE
    have hcast : pyFind topic '*' 0 + wildLen topic 0 = ((a.length + 1 : Nat) : Int) := by
      rw [hwi, hwl]
      push_cast
      ring
    rw [find_wildcard, show topic.length + 2 = (topic.length + 1) + 1 from rfl,
        find_wildcardAux_succ,
        auxStep_escape topic _ 0 (by omega) (by omega) hbr hesc, hcast,
        find_wildcardAux_succ,
        auxStep_no_star topic _ _ (by omega) (by omega)]
    rfl
  · set topic := a ++ '*' :: '*' :: ';' :: b with htopic
    have hlen : topic.length = a.length + b.length + 3 := by
      rw [htopic]
      simp
      omega
    have hstar : firstIdx topic '*' = some a.length := by
      rw [htopic]
      exact firstIdx_marker a _ '*' ha
    have hwi : pyFind topic '*' 0 = (a.length : Int) := by
      have h0 := pyFind_found topic '*' 0 a.length (by rw [List.drop_zero]; exact hstar)
      simpa using h0
    have hidx1 : topic[((a.length : Int) + 1).toNat]? = some '*' := by
      have hc : ((a.length : Int) + 1).toNat = a.length + 1 := by omega
      rw [hc, htopic, getElem?_append_cons a _ '*' 1]
      simp
    have hidx2 : topic[((a.length : Int) + 2).toNat]? = some ';' := by
      have hc : ((a.length : Int) + 2).toNat = a.length + 2 := by omega
      rw [hc, htopic, getElem?_append_cons a _ '*' 2]
      simp
    have hbr : ¬ (0 ≤ pyFind topic '[' 0 ∧ pyFind topic '[' 0 < pyFind topic '*' 0) := by
      rintro ⟨hb0, hblt⟩
      have hchar := pyFind_char topic '[' 0 hb0
      have hlt : (pyFind topic '[' 0).toNat < a.length := by omega
      rw [htopic, List.getElem?_append, if_pos hlt] at hchar
      obtain ⟨hn, he⟩ := List.getElem?_eq_some.mp hchar
      exact hal (he ▸ List.getElem_mem hn)
    have hwl : wildLen topic 0 = 2 := by
      rw [wildLen, hwi, if_pos]
      exact ⟨by omega, hidx1⟩
    have hesc : pyFind topic '*' 0 + wildLen topic 0 < (topic.length : Int)
        ∧ topic[(pyFind topic '*' 0 + wildLen topic 0).toNat]? = some ';' := by
      refine ⟨by omega, ?_⟩
      rw [hwi, hwl]
      exact hidx2
    have hdropE : topic.drop (a.length + 2) = ';' :: b := by
      rw [htopic, show a ++ '*' :: '*' :: ';' :: b = (a ++ ['*', '*']) ++ ';' :: b by simp,
          show a.length + 2 = (a ++ ['*', '*']).length by simp, List.drop_left]
    have hmE : firstIdx (topic.drop (a.length + 2)) '*' = none := by
      rw [hdropE, firstIdx_cons_ne ';' _ '*' (by decide), firstIdx_eq_none b '*' hb]
      rfl
    have hwiE : pyFind topic '*' ((a.length + 2 : Nat) : Int) = -1 :=
      pyFind_missing topic '*' _ hmE
    have hcast : pyFind topic '*' 0 + wildLen topic 0 = ((a.length + 2 : Nat) : Int) := by
      rw [hwi, hwl]
      push_cast
      ring
    rw [find_wildcard, show topic.length + 2 = (topic.length + 1) + 1 from rfl,
        find_wildcardAux_succ,
        auxStep_escape topic _ 0 (by omega) (by omega) hbr hesc, hcast,
        find_wildcardAux_succ,
        auxStep_no_star topic _ _ (by omega) (by omega)]
    rfl

theorem escaped_star_no_wildcard_witness :
    find_wildcard "up*;time".toList = (-1, -1)
    ∧ find_wildcard "up**;time".toList = (-1, -1) :=
  escaped_star_no_wildcard "up".toList "time".toList (by decide) (by decide) (by decide)

/-- C7 (counterexample): for the template `a*` (wildcard at offset 1,
length 1) and the substitution string `*`, re-running the wildcard scan on
the expanded result matches at offset 1, inside the substituted span
`[1, 2)`: the claim fails for substitutions containing `*`. -/
theorem expand_rematch_cex :
    find_wildcard ('a' :: '*' :: []) = (1, 1)
    ∧ (mkTopic ('a' :: '*' :: [])).get_subtopic ['*'] = Except.ok ('a' :: '*' :: [])
    ∧ find_wildcard ('a' :: '*' :: []) = (1, 1)
    ∧ ¬ ((1 : Int) < 1 ∨ (1 : Int) + (([('*' : Char)] : List Char).length : Int) ≤ 1) := by
  refine ⟨by decide, by rfl, by decide, by decide⟩

/-- C7 (amended): for every template with a recognized wildcard at offset
`i` and every substitution string `s` that does not itself contain `*`,
a wildcard found by re-scanning the expanded result lies outside the span
`[i, i + len s)` where `s` was inserted. -/
theorem expand_no_rematch (raw s r : List Char) (i L j l : Int)
    (h1 : find_wildcard raw = (i, L)) (h2 : 0 ≤ i)
    (hs : '*' ∉ s)
    (h3 : (mkTopic raw).get_subtopic s = Except.ok r)
    (h4 : find_wildcard r = (j, l)) (h5 : 0 ≤ j) :
    j < i ∨ i + (s.length : Int) ≤ j := by
  by_contra hcon
  push_neg at hcon
  obtain ⟨hji, hjs⟩ := hcon
  have hw : (mkTopic raw).wildcard_index = i := by rw [mkTopic, h1]
  have hl : (mkTopic raw).wildcard_len = L := by rw [mkTopic, h1]
  rw [Topic.get_subtopic, hw, hl, if_neg (by omega)] at h3
  have hr : raw.take i.toNat ++ s ++ raw.drop (i + L).toNat = r := Except.ok.inj h3
  have hstar : r[j.toNat]? = some '*' := find_wildcard_star r j l h4 h5
  have hilen : i < (raw.length : Int) := find_wildcard_lt_length raw i L h1 h2
  have htk : (raw.take i.toNat).length = i.toNat := by
    rw [List.length_take]
    omega
  rw [← hr, List.append_assoc] at hstar
  rw [List.getElem?_append_right (by omega : (raw.take i.toNat).length ≤ j.toNat)] at hstar
  rw [List.getElem?_append] at hstar
  rw [if_pos (by omega : j.toNat - (raw.take i.toNat).length < s.length)] at hstar
  obtain ⟨hn, he⟩ := List.getElem?_eq_some.mp hstar
  exact hs (he ▸ List.getElem_mem hn)

theorem expand_no_rematch_witness :
    find_wildcard ('a' :: '*' :: 'c' :: '*' :: []) = (1, 1)
    ∧ (mkTopic ('a' :: '*' :: 'c' :: '*' :: [])).get_subtopic ['x']
        = Except.ok ('a' :: 'x' :: 'c' :: '*' :: [])
    ∧ find_wildcard ('a' :: 'x' :: 'c' :: '*' :: []) = (3, 1)
    ∧ ((3 : Int) < 1 ∨ (1 : Int) + ((['x'] : List Char).length : Int) ≤ 3) := by
  refine ⟨by decide, by rfl, by decide, ?_⟩
  exact expand_no_rematch ('a' :: '*' :: 'c' :: '*' :: []) ['x']
    ('a' :: 'x' :: 'c' :: '*' :: []) 1 1 3 1
    (by decide) (by decide) (by decide) (by rfl) (by decide) (by decide)

/-- C6 (code bug): at an `IntEnum` input the encoder returns the bare
underlying integer (`return v.value`, src/psmqtt.py line 92), not its
decimal string: the result is not a string at all, contradicting the spec's
`encode(value) -> string` contract and the function's own name. -/
theorem payload_enum_not_stringified :
    payload_as_string (.enum 5) = .int 5
    ∧ payload_as_string (.enum 5) ≠ .str (intRepr 5) :=
  ⟨rfl, by decide⟩

end Psmqtt
